import Mathlib

/-!
Shallow embedding of the SignalFx metric-translation engine
(package `translation`: rule validation, `NewMetricTranslator`,
`TranslateDataPoints` and its per-action helpers) together with proofs of
the specified properties.

Modelling conventions:
* Go `int64` values are modelled as `Int`; the arithmetic performed by the
  engine (`multiply_int`, `divide_int`, the `sum` aggregation) wraps to the
  64-bit two's-complement range exactly where the Go code wraps, via
  `wrap64`.  Go integer division truncates toward zero, which is `Int.tdiv`.
* Go `float64` values are modelled as exact rationals (`ℚ`).  The engine
  only multiplies, adds and divides doubles; those operations are modelled
  by exact rational arithmetic.
* Go `map[K]V` fields of a `Rule` are modelled as `Option (List (K × V))`:
  `none` is a nil map (the validator distinguishes nil from empty), and
  lookup returns the first binding of a key.  Iteration order of Go maps is
  unspecified; where the code iterates a rule map only to test a property
  of all entries (the validator) the model uses `List.all`, and the
  aggregation grouping map is modelled as an association list in first-
  insertion order (a deterministic refinement of Go's map order, adequate
  for the per-group properties proved below).
-/

/-- Metric types of the SignalFx protobuf model (only `GAUGE` is ever
written by the translation code). -/
inductive MetricType where
  | gauge
  | counter
  | enumeration
  | cumulativeCounter
deriving DecidableEq, Repr

/-- A SignalFx dimension: a key/value pair of strings. -/
structure Dimension where
  key : String
  value : String
deriving DecidableEq, Repr

/-- A SignalFx datum: at most one of an integer and a double value
(`sfxpb.Datum` with its nilable `IntValue` / `DoubleValue` fields). -/
structure Datum where
  intValue : Option Int
  doubleValue : Option ℚ
deriving DecidableEq, Repr

/-- A SignalFx data point (`sfxpb.DataPoint`): metric name, dimension list,
value, timestamp and optional metric type. -/
structure DataPoint where
  metric : String
  dimensions : List Dimension
  value : Datum
  timestamp : Int
  metricType : Option MetricType
deriving DecidableEq, Repr

/-- First-match lookup in an optional association list, modelling a read of
a (possibly nil) Go map. -/
def lookupM {α : Type} (m : Option (List (String × α))) (k : String) : Option α :=
  (m.getD []).find? (fun kv => kv.1 == k) |>.map (fun kv => kv.2)

/-- Read of a Go `map[string]bool` (nil-safe, missing keys read as false),
as used by the `copy_metrics` dimension-value filter. -/
def lookupBoolM (m : Option (List (String × Bool))) (k : String) : Bool :=
  (lookupM m k).getD false

/-- Number of entries of a possibly nil Go map (`len` of a nil map is 0). -/
def lenM {α : Type} (m : Option (List (String × α))) : Nat :=
  (m.getD []).length

/-- Wrap an integer to the two's-complement `int64` range, the effect of Go
arithmetic on `int64`. -/
def wrap64 (x : Int) : Int :=
  (x + 2 ^ 63) % 2 ^ 64 - 2 ^ 63

/-- Go `int64` multiplication. -/
def goMul64 (a b : Int) : Int := wrap64 (a * b)

/-- Go `int64` division: truncation toward zero, wrapped (the only wrapping
case is `MinInt64 / -1`, which Go defines to overflow back to `MinInt64`). -/
def goDiv64 (a b : Int) : Int := wrap64 (Int.tdiv a b)

/-- The `action` strings of the translation rules. -/
@[simp] def ActionRenameDimensionKeys : String := "rename_dimension_keys"

/-- Action string for renaming metrics. -/
@[simp] def ActionRenameMetrics : String := "rename_metrics"

/-- Action string for integer multiplication scaling. -/
@[simp] def ActionMultiplyInt : String := "multiply_int"

/-- Action string for integer division scaling. -/
@[simp] def ActionDivideInt : String := "divide_int"

/-- Action string for float multiplication scaling. -/
@[simp] def ActionMultiplyFloat : String := "multiply_float"

/-- Action string for value-type conversion. -/
@[simp] def ActionConvertValues : String := "convert_values"

/-- Action string for copying metrics. -/
@[simp] def ActionCopyMetrics : String := "copy_metrics"

/-- Action string for splitting a metric by a dimension. -/
@[simp] def ActionSplitMetric : String := "split_metric"

/-- Action string for aggregating a metric across dimensions. -/
@[simp] def ActionAggregateMetric : String := "aggregate_metric"

/-- Action string for deriving a new metric from two operands. -/
@[simp] def ActionCalculateNewMetric : String := "calculate_new_metric"

/-- The only supported metric operator (division). -/
@[simp] def MetricOperatorDivision : String := "/"

/-- The integer value-type tag accepted by `convert_values`. -/
@[simp] def MetricValueTypeInt : String := "int"

/-- The double value-type tag accepted by `convert_values`. -/
@[simp] def MetricValueTypeDouble : String := "double"

/-- The count aggregation method. -/
@[simp] def AggregationMethodCount : String := "count"

/-- The sum aggregation method. -/
@[simp] def AggregationMethodSum : String := "sum"

/-- A translation rule (`Rule`): the action tag plus the action-specific
optional payload fields.  String-typed enumerations (`Action`,
`MetricOperator`, `MetricValueType`, `AggregationMethod`) are kept as
strings, as in the source, so that unknown tags are expressible. -/
structure Rule where
  action : String
  mapping : Option (List (String × String))
  scaleFactorsInt : Option (List (String × Int))
  scaleFactorsFloat : Option (List (String × ℚ))
  metricName : String
  dimensionKey : String
  dimensionValues : Option (List (String × Bool))
  typesMapping : Option (List (String × String))
  aggregationMethod : String
  dimensions : List String
  operand1Metric : String
  operand2Metric : String
  operator : String
deriving DecidableEq, Repr

/-- The Go zero value of `Rule`, convenient for building concrete rules. -/
def emptyRule : Rule :=
  { action := ""
    mapping := none
    scaleFactorsInt := none
    scaleFactorsFloat := none
    metricName := ""
    dimensionKey := ""
    dimensionValues := none
    typesMapping := none
    aggregationMethod := ""
    dimensions := []
    operand1Metric := ""
    operand2Metric := ""
    operator := "" }

/-- The body of `validateTranslationRules`: one pass over the rule list,
carrying the `renameDimentionKeysFound` flag.  Error messages are
abbreviated; only success versus failure is relied upon. -/
def validateTranslationRulesAux : Bool → List Rule → Except String Unit
  | _, [] => Except.ok ()
  | found, tr :: rest =>
    if tr.action = ActionRenameDimensionKeys then
      if tr.mapping = none then
        Except.error "field mapping is required for rename_dimension_keys translation rule"
      else if found then
        Except.error "only one rename_dimension_keys translation rule can be specified"
      else validateTranslationRulesAux true rest
    else if tr.action = ActionRenameMetrics then
      if tr.mapping = none then
        Except.error "field mapping is required for rename_metrics translation rule"
      else validateTranslationRulesAux found rest
    else if tr.action = ActionMultiplyInt then
      if tr.scaleFactorsInt = none then
        Except.error "field scale_factors_int is required for multiply_int translation rule"
      else validateTranslationRulesAux found rest
    else if tr.action = ActionDivideInt then
      if tr.scaleFactorsInt = none then
        Except.error "field scale_factors_int is required for divide_int translation rule"
      else if (tr.scaleFactorsInt.getD []).any (fun kv => kv.2 == 0) then
        Except.error "scale_factors_int for divide_int translation rule has 0 value"
      else validateTranslationRulesAux found rest
    else if tr.action = ActionMultiplyFloat then
      if tr.scaleFactorsFloat = none then
        Except.error "field scale_factors_float is required for multiply_float translation rule"
      else validateTranslationRulesAux found rest
    else if tr.action = ActionCopyMetrics then
      if tr.mapping = none then
        Except.error "field mapping is required for copy_metrics translation rule"
      else if tr.dimensionKey ≠ "" ∧ lenM tr.dimensionValues = 0 then
        Except.error "dimension_values_filer has to be provided if dimension_key is set for copy_metrics translation rule"
      else validateTranslationRulesAux found rest
    else if tr.action = ActionSplitMetric then
      if tr.metricName = "" ∨ tr.dimensionKey = "" ∨ tr.mapping = none then
        Except.error "fields metric_name, dimension_key, and mapping are required for split_metric translation rule"
      else validateTranslationRulesAux found rest
    else if tr.action = ActionConvertValues then
      if tr.typesMapping = none then
        Except.error "field types_mapping are required for convert_values translation rule"
      else if (tr.typesMapping.getD []).any
          (fun kv => kv.2 != MetricValueTypeInt && kv.2 != MetricValueTypeDouble) then
        Except.error "invalid value type set in types_mapping"
      else validateTranslationRulesAux found rest
    else if tr.action = ActionAggregateMetric then
      if tr.metricName = "" ∨ tr.aggregationMethod = "" ∨ tr.dimensions.length = 0 then
        Except.error "fields metric_name, dimensions, and aggregation_method are required for aggregate_metric translation rule"
      else if tr.aggregationMethod ≠ AggregationMethodCount ∧
          tr.aggregationMethod ≠ AggregationMethodSum then
        Except.error "invalid aggregation_method provided for aggregate_metric translation rule"
      else validateTranslationRulesAux found rest
    else if tr.action = ActionCalculateNewMetric then
      if tr.metricName = "" ∨ tr.operand1Metric = "" ∨ tr.operand2Metric = "" ∨
          tr.operator = "" then
        Except.error "fields metric_name, operand1_metric, operand2_metric, and operator are required for calculate_new_metric translation rule"
      else if tr.operator ≠ MetricOperatorDivision then
        Except.error "invalid operator for calculate_new_metric translation rule"
      else validateTranslationRulesAux found rest
    else
      Except.error "unknown action value"

/-- Validation of a whole rule list (`validateTranslationRules`). -/
def validateTranslationRules (rules : List Rule) : Except String Unit :=
  validateTranslationRulesAux false rules

/-- The mapping of the first `rename_dimension_keys` rule, if any
(`createDimensionsMap`). -/
def createDimensionsMap (rules : List Rule) : Option (List (String × String)) :=
  match rules.find? (fun tr => tr.action == ActionRenameDimensionKeys) with
  | some tr => tr.mapping
  | none => none

/-- The constructed engine (`MetricTranslator`). -/
structure MetricTranslator where
  rules : List Rule
  dimensionsMap : Option (List (String × String))
deriving DecidableEq, Repr

/-- Engine construction (`NewMetricTranslator`): validate, then build. -/
def NewMetricTranslator (rules : List Rule) : Except String MetricTranslator :=
  match validateTranslationRules rules with
  | Except.error e => Except.error e
  | Except.ok _ => Except.ok { rules := rules, dimensionsMap := createDimensionsMap rules }

/-- Dimension-name lookup (`TranslateDimension`). -/
def TranslateDimension (mt : MetricTranslator) (orig : String) : String :=
  match lookupM mt.dimensionsMap orig with
  | some translated => translated
  | none => orig

/-- The dimension filter of `copyMetric`: the first dimension with the
configured key decides (the Go loop `break`s on the first key match); its
value is looked up in the allow-set (missing reads as false). -/
def copyMetricMatch (tr : Rule) (dp : DataPoint) : Bool :=
  match dp.dimensions.find? (fun d => d.key == tr.dimensionKey) with
  | some d => lookupBoolM tr.dimensionValues d.value
  | none => false

/-- Copy-with-filter, continued: the clone-and-rename step of `copyMetric`. -/
def copyMetric (tr : Rule) (dp : DataPoint) (newMetricName : String) : Option DataPoint :=
  if tr.dimensionKey ≠ "" then
    if copyMetricMatch tr dp = true then some { dp with metric := newMetricName } else none
  else
    some { dp with metric := newMetricName }

/-- The loop of `splitMetric`.  State: the remaining dimensions, the
current (possibly already renamed) metric, the accumulated kept dimensions
and the `match` flag.  The Go code's `i == len(dp.Dimensions)-1` test is
rendered as `rest = []` (the current element is the last one).  Early
`return`s leave the dimension list as it was but keep any rename already
performed. -/
def splitMetricLoop (dp : DataPoint) (dimensionKey : String)
    (mapping : Option (List (String × String))) :
    List Dimension → String → List Dimension → Bool → DataPoint
  | [], metric, acc, _ => { dp with metric := metric, dimensions := acc }
  | d :: rest, metric, acc, mtch =>
    if dimensionKey = d.key then
      match lookupM mapping d.value with
      | some newName => splitMetricLoop dp dimensionKey mapping rest newName acc true
      | none => { dp with metric := metric }
    else if rest = [] ∧ mtch = false then
      { dp with metric := metric }
    else
      splitMetricLoop dp dimensionKey mapping rest metric (acc ++ [d]) mtch

/-- Split a metric by a dimension (`splitMetric`): rename the point to
`mapping[value]` of the configured dimension and drop that dimension;
points with no such dimension, or an unmapped value, are kept as is. -/
def splitMetric (dp : DataPoint) (dimensionKey : String)
    (mapping : Option (List (String × String))) : DataPoint :=
  if dp.dimensions = [] then dp
  else splitMetricLoop dp dimensionKey mapping dp.dimensions dp.metric [] false

/-- Truncation of a rational toward zero, the effect of Go's
`int64(float64)` conversion for in-range values. -/
def truncQ (q : ℚ) : Int := Int.tdiv q.num (q.den : Int)

/-- Value-type conversion (`convertMetricValue`): `int` requires a present
double (truncated toward zero), `double` requires a present int (widened);
otherwise the point is unchanged. -/
def convertMetricValue (dp : DataPoint) (newType : String) : DataPoint :=
  if newType = MetricValueTypeInt then
    match dp.value.doubleValue with
    | none => dp
    | some v => { dp with value := { intValue := some (truncQ v), doubleValue := none } }
  else if newType = MetricValueTypeDouble then
    match dp.value.intValue with
    | none => dp
    | some v => { dp with value := { intValue := none, doubleValue := some (v : ℚ) } }
  else dp

/-- The operand scan of the `calculate_new_metric` action: one pass over
the working batch, overwriting the operands on every name match, so the
*last* point named `m1` wins, and the last point named `m2` (among points
not named `m1`) wins. -/
def findOperands (dps : List DataPoint) (m1 m2 : String) :
    Option DataPoint × Option DataPoint :=
  dps.foldl
    (fun acc dp =>
      if dp.metric = m1 then (some dp, acc.2)
      else if dp.metric = m2 then (acc.1, some dp)
      else acc)
    (none, none)

/-- Derivation of a new metric (`calculateNewMetric`): requires both
operands present with integer values, skips a division whose divisor is
zero, and otherwise clones operand 1, renames it, and gives it the single
double value `operand1 / operand2` (exact division). -/
def calculateNewMetric (operand1 operand2 : Option DataPoint) (tr : Rule) :
    Option DataPoint :=
  match operand1 with
  | none => none
  | some op1 =>
    match op1.value.intValue with
    | none => none
    | some v1 =>
      match operand2 with
      | none => none
      | some op2 =>
        match op2.value.intValue with
        | none => none
        | some v2 =>
          if tr.operator = MetricOperatorDivision ∧ v2 = 0 then none
          else if tr.operator = MetricOperatorDivision then
            some { op1 with
                    metric := tr.metricName
                    value := { intValue := none, doubleValue := some ((v1 : ℚ) / (v2 : ℚ)) } }
          else none

/-- One dimension-key contribution to an aggregation key: the Go inner loop
appends `value ++ "//"` for *every* dimension whose key matches (its
`continue` continues the inner loop). -/
def aggregationKeyPart (dimensions : List Dimension) (dk : String) (acc : String) : String :=
  dimensions.foldl (fun s d => if d.key = dk then s ++ d.value ++ "//" else s) acc

/-- The key-building loop of `getAggregationKey`, carrying the partial
key. -/
def getAggregationKeyAux (dimensions : List Dimension) (acc : String) :
    List String → Except String String
  | [] => Except.ok acc
  | dk :: rest =>
    if dimensions.any (fun d => d.key == dk) then
      getAggregationKeyAux dimensions (aggregationKeyPart dimensions dk acc) rest
    else
      Except.error ("dimension to aggregate by is not found: " ++ dk)

/-- Compose an aggregation key from the configured dimension keys
(`getAggregationKey`); errors if some configured key is absent. -/
def getAggregationKey (dimensions : List Dimension) (dimensionsKeys : List String) :
    Except String String :=
  getAggregationKeyAux dimensions "" dimensionsKeys

/-- Restrict a dimension list to the configured keys (`filterDimensions`):
for each configured key in order, every dimension with that key is kept
(the Go inner `continue` keeps scanning). -/
def filterDimensions (dimensions : List Dimension) (dimensionsKeys : List String) :
    List Dimension :=
  if dimensions = [] ∨ dimensionsKeys = [] then []
  else dimensionsKeys.foldl (fun res dk => res ++ dimensions.filter (fun d => d.key == dk)) []

/-- Insert a data point into the grouping structure, keeping first-insertion
order of keys and of members within a group. -/
def addToGroups (groups : List (String × List DataPoint)) (k : String) (dp : DataPoint) :
    List (String × List DataPoint) :=
  match groups with
  | [] => [(k, [dp])]
  | (k', l) :: rest =>
    if k' = k then (k', l ++ [dp]) :: rest else (k', l) :: addToGroups rest k dp

/-- Group data points by aggregation key (the `dimValuesToDps` map of
`aggregateDatapoints`); points whose key computation errors are dropped. -/
def groupDps (dps : List DataPoint) (dimensionsKeys : List String) :
    List (String × List DataPoint) :=
  dps.foldl
    (fun gs dp =>
      match getAggregationKey dp.dimensions dimensionsKeys with
      | Except.error _ => gs
      | Except.ok k => addToGroups gs k dp)
    []

/-- One step of the `sum` reduction of a group: running `int64` and
`float64` sums, with each value field of the result set exactly when some
member carries that field (the Go code points the result at the running
accumulators, so the last write of each present field is the total). -/
def sumStep (acc : Int × ℚ × Datum) (dp : DataPoint) : Int × ℚ × Datum :=
  let acc1 :=
    match dp.value.intValue with
    | some v =>
      let i := wrap64 (acc.1 + v)
      (i, acc.2.1, { acc.2.2 with intValue := some i })
    | none => acc
  match dp.value.doubleValue with
  | some v =>
    let f := acc1.2.1 + v
    (acc1.1, f, { acc1.2.2 with doubleValue := some f })
  | none => acc1

/-- The `sum` reduction of a group, continued: fold `sumStep` from zero
accumulators and an empty result datum. -/
def sumDatum (dps : List DataPoint) : Datum :=
  (dps.foldl sumStep (0, 0, { intValue := none, doubleValue := none })).2.2

/-- Reduce one group to a single data point: a clone of the first member
with dimensions filtered to the configured keys, then the `count` or `sum`
value (an unknown method leaves the clone's value untouched, as the Go
`switch` has no default). -/
def reduceGroup (dimensionsKeys : List String) (aggregation : String)
    (members : List DataPoint) : DataPoint :=
  match members with
  | [] =>
    { metric := "", dimensions := [], value := { intValue := none, doubleValue := none },
      timestamp := 0, metricType := none }
  | rep :: _ =>
    let dp0 := { rep with dimensions := filterDimensions rep.dimensions dimensionsKeys }
    if aggregation = AggregationMethodCount then
      { dp0 with
          metricType := some MetricType.gauge
          value := { intValue := some (Int.ofNat members.length), doubleValue := none } }
    else if aggregation = AggregationMethodSum then
      { dp0 with value := sumDatum members }
    else dp0

/-- Aggregate a sub-batch of same-named data points (`aggregateDatapoints`). -/
def aggregateDatapoints (dps : List DataPoint) (dimensionsKeys : List String)
    (aggregation : String) : List DataPoint :=
  if dps = [] then []
  else (groupDps dps dimensionsKeys).map (fun g => reduceGroup dimensionsKeys aggregation g.2)

/-- One action of `TranslateDataPoints`: the `switch tr.Action` body,
transforming the current working batch. -/
def applyRule (tr : Rule) (dps : List DataPoint) : List DataPoint :=
  if tr.action = ActionRenameDimensionKeys then
    dps.map (fun dp =>
      { dp with
          dimensions := dp.dimensions.map (fun d =>
            match lookupM tr.mapping d.key with
            | some newKey => { d with key := newKey }
            | none => d) })
  else if tr.action = ActionRenameMetrics then
    dps.map (fun dp =>
      match lookupM tr.mapping dp.metric with
      | some newKey => { dp with metric := newKey }
      | none => dp)
  else if tr.action = ActionMultiplyInt then
    dps.map (fun dp =>
      match lookupM tr.scaleFactorsInt dp.metric with
      | some multiplier =>
        { dp with value := { dp.value with
            intValue := dp.value.intValue.map (fun v => goMul64 v multiplier) } }
      | none => dp)
  else if tr.action = ActionDivideInt then
    dps.map (fun dp =>
      match lookupM tr.scaleFactorsInt dp.metric with
      | some divisor =>
        { dp with value := { dp.value with
            intValue := dp.value.intValue.map (fun v => goDiv64 v divisor) } }
      | none => dp)
  else if tr.action = ActionMultiplyFloat then
    dps.map (fun dp =>
      match lookupM tr.scaleFactorsFloat dp.metric with
      | some multiplier =>
        { dp with value := { dp.value with
            doubleValue := dp.value.doubleValue.map (fun v => v * multiplier) } }
      | none => dp)
  else if tr.action = ActionCopyMetrics then
    dps ++ dps.filterMap (fun dp =>
      match lookupM tr.mapping dp.metric with
      | some newMetric => copyMetric tr dp newMetric
      | none => none)
  else if tr.action = ActionSplitMetric then
    dps.map (fun dp =>
      if tr.metricName = dp.metric then splitMetric dp tr.dimensionKey tr.mapping else dp)
  else if tr.action = ActionConvertValues then
    dps.map (fun dp =>
      match lookupM tr.typesMapping dp.metric with
      | some newType => convertMetricValue dp newType
      | none => dp)
  else if tr.action = ActionCalculateNewMetric then
    let ops := findOperands dps tr.operand1Metric tr.operand2Metric
    match calculateNewMetric ops.1 ops.2 tr with
    | none => dps
    | some newPt => dps ++ [newPt]
  else if tr.action = ActionAggregateMetric then
    let dpsToAggregate := dps.filter (fun dp => dp.metric == tr.metricName)
    let otherDps := dps.filter (fun dp => ¬ dp.metric == tr.metricName)
    otherDps ++ aggregateDatapoints dpsToAggregate tr.dimensions tr.aggregationMethod
  else dps

/-- The batch transform (`TranslateDataPoints`): apply the rules in list
order, each consuming the previous action's output. -/
def TranslateDataPoints (mt : MetricTranslator) (sfxDataPoints : List DataPoint) :
    List DataPoint :=
  mt.rules.foldl (fun processed tr => applyRule tr processed) sfxDataPoints

/-- Predicate for a `rename_dimension_keys` rule. -/
def isRenameDimensionKeysRule (tr : Rule) : Bool :=
  tr.action == ActionRenameDimensionKeys

/-- Well-formedness of a single rule, written from the specification's
validation contract (section 4.1): per action, the required fields and the
closed enumerated values.  Used as the spec side of the construction
claim; the source side is `validateTranslationRules`. -/
def specRuleWellFormed (tr : Rule) : Bool :=
  if tr.action = ActionRenameDimensionKeys then tr.mapping.isSome
  else if tr.action = ActionRenameMetrics then tr.mapping.isSome
  else if tr.action = ActionMultiplyInt then tr.scaleFactorsInt.isSome
  else if tr.action = ActionDivideInt then
    tr.scaleFactorsInt.isSome && (tr.scaleFactorsInt.getD []).all (fun kv => kv.2 != 0)
  else if tr.action = ActionMultiplyFloat then tr.scaleFactorsFloat.isSome
  else if tr.action = ActionCopyMetrics then
    tr.mapping.isSome && (tr.dimensionKey == "" || lenM tr.dimensionValues != 0)
  else if tr.action = ActionSplitMetric then
    tr.metricName != "" && tr.dimensionKey != "" && tr.mapping.isSome
  else if tr.action = ActionConvertValues then
    tr.typesMapping.isSome && (tr.typesMapping.getD []).all
      (fun kv => kv.2 == MetricValueTypeInt || kv.2 == MetricValueTypeDouble)
  else if tr.action = ActionAggregateMetric then
    tr.metricName != "" && tr.dimensions.length != 0 &&
      (tr.aggregationMethod == AggregationMethodCount ||
        tr.aggregationMethod == AggregationMethodSum)
  else if tr.action = ActionCalculateNewMetric then
    tr.metricName != "" && tr.operand1Metric != "" && tr.operand2Metric != "" &&
      tr.operator == MetricOperatorDivision
  else false

/-- Well-formedness of a whole rule list, from the specification: every
rule is well-formed and at most one `rename_dimension_keys` rule appears. -/
def specRulesWellFormed (rules : List Rule) : Prop :=
  (∀ tr ∈ rules, specRuleWellFormed tr = true) ∧
    rules.countP isRenameDimensionKeysRule ≤ 1

def cDivRule : Rule :=
  { emptyRule with action := ActionDivideInt, scaleFactorsInt := some [("m", 3)] }

def cCopyRule : Rule :=
  { emptyRule with
    action := ActionCopyMetrics
    mapping := some [("m", "m2")]
    dimensionKey := "k"
    dimensionValues := some [("good", true)] }

def cCopyDp : DataPoint :=
  { metric := "m"
    dimensions := [{ key := "k", value := "good" }, { key := "k", value := "bad" }]
    value := { intValue := some 1, doubleValue := none }
    timestamp := 7
    metricType := none }

def cSplitDp : DataPoint :=
  { metric := "m"
    dimensions := [{ key := "host", value := "h" }]
    value := { intValue := some 1, doubleValue := none }
    timestamp := 7
    metricType := none }

def mkIntDp (m : String) (v : Int) : DataPoint :=
  { metric := m
    dimensions := [{ key := "host", value := "h1" }]
    value := { intValue := some v, doubleValue := none }
    timestamp := 100
    metricType := none }

def cCalcRule : Rule :=
  { emptyRule with
    action := ActionCalculateNewMetric
    metricName := "c"
    operand1Metric := "a"
    operand2Metric := "b"
    operator := "/" }

def mulIntRule (m : String) (k : Int) : Rule :=
  { emptyRule with action := ActionMultiplyInt, scaleFactorsInt := some [(m, k)] }

def divIntRule (m : String) (k : Int) : Rule :=
  { emptyRule with action := ActionDivideInt, scaleFactorsInt := some [(m, k)] }

def cAggDpA : DataPoint :=
  { metric := "m"
    dimensions := [{ key := "host", value := "a" }, { key := "cpu", value := "0" }]
    value := { intValue := some 5, doubleValue := none }
    timestamp := 7
    metricType := none }

def cAggDpB : DataPoint :=
  { metric := "m"
    dimensions := [{ key := "host", value := "a" }, { key := "cpu", value := "1" }]
    value := { intValue := some 3, doubleValue := none }
    timestamp := 7
    metricType := none }

def cAggDpF : DataPoint :=
  { metric := "m"
    dimensions := [{ key := "host", value := "a" }, { key := "cpu", value := "2" }]
    value := { intValue := none, doubleValue := some (5 / 2 : ℚ) }
    timestamp := 7
    metricType := none }

def cDupDp : DataPoint :=
  { metric := "m"
    dimensions := [{ key := "host", value := "a" }, { key := "host", value := "b" }]
    value := { intValue := some 1, doubleValue := none }
    timestamp := 7
    metricType := none }

lemma validateAux_cons_notRename (tr : Rule) (rest : List Rule) (found : Bool)
    (h1 : ¬ tr.action = ActionRenameDimensionKeys) :
    validateTranslationRulesAux found (tr :: rest) = Except.ok () ↔
      (specRuleWellFormed tr = true ∧
        validateTranslationRulesAux found rest = Except.ok ()) := by
  by_cases h2 : tr.action = ActionRenameMetrics
  · rcases hm : tr.mapping with _ | m <;>
      simp [validateTranslationRulesAux, h1, h2, hm, specRuleWellFormed]
  · by_cases h3 : tr.action = ActionMultiplyInt
    · rcases hs : tr.scaleFactorsInt with _ | s <;>
        simp [validateTranslationRulesAux, h1, h2, h3, hs, specRuleWellFormed]
    · by_cases h4 : tr.action = ActionDivideInt
      · rcases hs : tr.scaleFactorsInt with _ | s
        · simp [validateTranslationRulesAux, h1, h2, h3, h4, hs, specRuleWellFormed]
        · cases hz : s.any (fun kv => kv.2 == 0) with
          | false =>
            simp [validateTranslationRulesAux, h1, h2, h3, h4, hs, hz, specRuleWellFormed]
            simp only [List.any_eq_false, beq_iff_eq] at hz
            intro _
            exact fun a b hab => hz (a, b) hab
          | true =>
            simp [validateTranslationRulesAux, h1, h2, h3, h4, hs, hz, specRuleWellFormed]
            simp only [List.any_eq_true, beq_iff_eq] at hz
            obtain ⟨kv, hkv, hkv0⟩ := hz
            rintro hall -
            exact absurd hkv0 (hall kv.1 kv.2 (by simpa using hkv))
      · by_cases h5 : tr.action = ActionMultiplyFloat
        · rcases hs : tr.scaleFactorsFloat with _ | s <;>
            simp [validateTranslationRulesAux, h1, h2, h3, h4, h5, hs, specRuleWellFormed]
        · by_cases h6 : tr.action = ActionCopyMetrics
          · rcases hm : tr.mapping with _ | m
            · simp [validateTranslationRulesAux, h1, h2, h3, h4, h5, h6, hm, specRuleWellFormed]
            · by_cases hc : tr.dimensionKey ≠ "" ∧ lenM tr.dimensionValues = 0
              · simp [validateTranslationRulesAux, h1, h2, h3, h4, h5, h6, hm, hc,
                  specRuleWellFormed]
              · simp [validateTranslationRulesAux, h1, h2, h3, h4, h5, h6, hm, hc,
                  specRuleWellFormed]
                all_goals rw [Classical.not_and_iff_or_not_not] at hc
                all_goals tauto
          · by_cases h7 : tr.action = ActionSplitMetric
            · by_cases hc : tr.metricName = "" ∨ tr.dimensionKey = "" ∨ tr.mapping = none
              · simp [validateTranslationRulesAux, h1, h2, h3, h4, h5, h6, h7, hc,
                  specRuleWellFormed]
                all_goals rcases hc with hc | hc | hc <;> simp [hc]
              · push_neg at hc
                simp [validateTranslationRulesAux, h1, h2, h3, h4, h5, h6, h7, hc,
                  specRuleWellFormed, hc.1, hc.2.1, hc.2.2, Option.ne_none_iff_isSome]
                all_goals exact fun _ => Option.ne_none_iff_isSome.mp hc.2.2
            · by_cases h8 : tr.action = ActionConvertValues
              · rcases hs : tr.typesMapping with _ | s
                · simp [validateTranslationRulesAux, h1, h2, h3, h4, h5, h6, h7, h8, hs,
                    specRuleWellFormed]
                · cases hz : s.any (fun kv => kv.2 != "int" && kv.2 != "double") with
                  | false =>
                    simp [validateTranslationRulesAux, h1, h2, h3, h4, h5, h6, h7, h8, hs, hz,
                      specRuleWellFormed]
                    simp only [List.any_eq_false, Bool.and_eq_true, bne_iff_ne,
                      not_and, not_not, ne_eq] at hz
                    intro _ a b hab
                    have := hz (a, b) hab
                    tauto
                  | true =>
                    simp [validateTranslationRulesAux, h1, h2, h3, h4, h5, h6, h7, h8, hs, hz,
                      specRuleWellFormed]
                    simp only [List.any_eq_true, Bool.and_eq_true, bne_iff_ne, ne_eq] at hz
                    obtain ⟨kv, hkv, hkv0⟩ := hz
                    rintro hall -
                    have := hall kv.1 kv.2 (by simpa using hkv)
                    tauto
              · by_cases h9 : tr.action = ActionAggregateMetric
                · by_cases hc : tr.metricName = "" ∨ tr.aggregationMethod = "" ∨
                      tr.dimensions = []
                  · simp [validateTranslationRulesAux, h1, h2, h3, h4, h5, h6, h7, h8, h9, hc,
                      specRuleWellFormed]
                    all_goals rcases hc with hc | hc | hc <;> simp [hc]
                  · push_neg at hc
                    by_cases hz : ¬ tr.aggregationMethod = "count" ∧
                        ¬ tr.aggregationMethod = "sum"
                    · simp [validateTranslationRulesAux, h1, h2, h3, h4, h5, h6, h7, h8, h9,
                        hc.1, hc.2.1, hc.2.2, hz, specRuleWellFormed, hz.1, hz.2]
                    · rw [Classical.not_and_iff_or_not_not] at hz
                      simp only [not_not] at hz
                      simp [validateTranslationRulesAux, h1, h2, h3, h4, h5, h6, h7, h8, h9,
                        hc.1, hc.2.1, hc.2.2, specRuleWellFormed]
                      all_goals rcases hz with hz | hz <;> simp [hz, hc.1, hc.2.2]
                · by_cases h10 : tr.action = ActionCalculateNewMetric
                  · by_cases hc : tr.metricName = "" ∨ tr.operand1Metric = "" ∨
                        tr.operand2Metric = "" ∨ tr.operator = ""
                    · simp [validateTranslationRulesAux, h1, h2, h3, h4, h5, h6, h7, h8, h9,
                        h10, hc, specRuleWellFormed]
                      all_goals rcases hc with hc | hc | hc | hc <;> simp [hc]
                    · push_neg at hc
                      by_cases hz : ¬ tr.operator = "/"
                      · simp [validateTranslationRulesAux, h1, h2, h3, h4, h5, h6, h7, h8, h9,
                          h10, hc.1, hc.2.1, hc.2.2.1, hc.2.2.2, hz, specRuleWellFormed]
                      · simp only [not_not] at hz
                        simp [validateTranslationRulesAux, h1, h2, h3, h4, h5, h6, h7, h8, h9,
                          h10, hc.1, hc.2.1, hc.2.2.1, hc.2.2.2, hz, specRuleWellFormed]
                  · simp only [ActionRenameDimensionKeys, ActionRenameMetrics, ActionMultiplyInt,
                      ActionDivideInt, ActionMultiplyFloat, ActionConvertValues, ActionCopyMetrics,
                      ActionSplitMetric, ActionAggregateMetric, ActionCalculateNewMetric]
                      at h1 h2 h3 h4 h5 h6 h7 h8 h9 h10
                    simp [validateTranslationRulesAux, h1, h2, h3, h4, h5, h6, h7, h8, h9, h10,
                      specRuleWellFormed]

lemma validateAux_cons_rename (tr : Rule) (rest : List Rule) (found : Bool)
    (h1 : tr.action = ActionRenameDimensionKeys) :
    validateTranslationRulesAux found (tr :: rest) = Except.ok () ↔
      (tr.mapping.isSome = true ∧ found = false ∧
        validateTranslationRulesAux true rest = Except.ok ()) := by
  rcases hm : tr.mapping with _ | m
  · simp [validateTranslationRulesAux, h1, hm]
  · cases found <;> simp [validateTranslationRulesAux, h1, hm]

lemma validateAux_ok_iff (rules : List Rule) : ∀ found : Bool,
    validateTranslationRulesAux found rules = Except.ok () ↔
      ((∀ tr ∈ rules, specRuleWellFormed tr = true) ∧
        rules.countP isRenameDimensionKeysRule + (if found then 1 else 0) ≤ 1) := by
  induction rules with
  | nil =>
    intro found
    cases found <;> simp [validateTranslationRulesAux]
  | cons tr rest ih =>
    intro found
    by_cases h1 : tr.action = ActionRenameDimensionKeys
    · rw [validateAux_cons_rename tr rest found h1, ih true]
      have hr : isRenameDimensionKeysRule tr = true := by
        simpa [isRenameDimensionKeysRule] using h1
      cases found <;>
        simp [List.countP_cons, hr, specRuleWellFormed, h1]
      all_goals tauto
    · rw [validateAux_cons_notRename tr rest found h1, ih found]
      have hr : isRenameDimensionKeysRule tr = false := by
        simpa [isRenameDimensionKeysRule] using h1
      simp [List.countP_cons, hr]
      tauto

/-- C1: construction succeeds exactly on well-formed rule lists: for every
rule list failing validation (a second rename_dimension_keys rule, a zero
divide_int factor, an unknown action, a missing required field) no
translator is produced, and for every well-formed rule list a translator
is returned. -/
theorem NewMetricTranslator_ok_iff_specWellFormed (rules : List Rule) :
    (∃ mt, NewMetricTranslator rules = Except.ok mt) ↔ specRulesWellFormed rules := by
  have key := validateAux_ok_iff rules false
  simp only [if_neg (by simp : ¬ (false = true)), Nat.add_zero] at key
  constructor
  · rintro ⟨mt, hmt⟩
    unfold NewMetricTranslator validateTranslationRules at hmt
    rcases hv : validateTranslationRulesAux false rules with e | u
    · rw [hv] at hmt
      cases hmt
    · cases u
      exact key.mp hv
  · intro hs
    have hv : validateTranslationRulesAux false rules = Except.ok () := key.mpr hs
    refine ⟨{ rules := rules, dimensionsMap := createDimensionsMap rules }, ?_⟩
    unfold NewMetricTranslator validateTranslationRules
    rw [hv]

/-- C9: in every successfully constructed translator, every divide_int
rule's scale-factor table contains only non-zero divisors, so every divisor
actually fetched by the divide_int action at transform time is non-zero. -/
theorem divideInt_divisor_nonzero (rules : List Rule) (mt : MetricTranslator)
    (hmt : NewMetricTranslator rules = Except.ok mt)
    (tr : Rule) (htr : tr ∈ mt.rules) (hact : tr.action = ActionDivideInt) :
    (∀ s, tr.scaleFactorsInt = some s → ∀ kv ∈ s, kv.2 ≠ 0) ∧
    (∀ metric d, lookupM tr.scaleFactorsInt metric = some d → d ≠ 0) := by
  unfold NewMetricTranslator validateTranslationRules at hmt
  rcases hv : validateTranslationRulesAux false rules with e | u
  · rw [hv] at hmt
    cases hmt
  · cases u
    rw [hv] at hmt
    have key := (validateAux_ok_iff rules false).mp hv
    cases hmt
    simp only [] at htr
    have hwf : specRuleWellFormed tr = true := key.1 tr htr
    simp only [specRuleWellFormed, hact] at hwf
    simp at hwf
    have hall : ∀ kv ∈ tr.scaleFactorsInt.getD [], (kv : String × Int).2 ≠ 0 := by
      intro kv hkv
      exact hwf.2 kv.1 kv.2 (by simpa using hkv)
    constructor
    · intro s hsome kv hkv
      exact hall kv (by simp [hsome, hkv])
    · intro metric d hlook
      unfold lookupM at hlook
      rcases hfind : (tr.scaleFactorsInt.getD []).find? (fun kv => kv.1 == metric) with _ | kv
      · rw [hfind] at hlook
        cases hlook
      · rw [hfind] at hlook
        have hmem := List.mem_of_find?_eq_some hfind
        have : kv.2 = d := by simpa using hlook
        rw [← this]
        exact hall kv hmem

theorem divideInt_divisor_nonzero_witness : (3 : Int) ≠ 0 :=
  (divideInt_divisor_nonzero [cDivRule] { rules := [cDivRule], dimensionsMap := none }
    rfl cDivRule (List.mem_singleton_self _) rfl).2 "m" 3 rfl

/-- C10: with a configured dimension filter key, the first occurrence of
that key in the point's dimension list decides whether a copy is produced,
regardless of the values of later occurrences. -/
theorem copyMetric_first_occurrence_decides (tr : Rule) (dp : DataPoint)
    (newMetricName : String)
    (pre post : List Dimension) (d : Dimension)
    (hk : tr.dimensionKey ≠ "")
    (hdims : dp.dimensions = pre ++ d :: post)
    (hpre : ∀ d' ∈ pre, d'.key ≠ tr.dimensionKey)
    (hd : d.key = tr.dimensionKey)
    (hdup : ∃ d'' ∈ post, d''.key = tr.dimensionKey) :
    (copyMetric tr dp newMetricName).isSome = lookupBoolM tr.dimensionValues d.value := by
  have hfind : dp.dimensions.find? (fun x => x.key == tr.dimensionKey) = some d := by
    rw [hdims]
    rw [List.find?_append]
    have hpre0 : pre.find? (fun x => x.key == tr.dimensionKey) = none := by
      rw [List.find?_eq_none]
      intro x hx
      simpa using hpre x hx
    rw [hpre0]
    simp [List.find?_cons, hd]
  unfold copyMetric copyMetricMatch
  rw [if_pos hk, hfind]
  cases h : lookupBoolM tr.dimensionValues d.value <;> simp [h]

theorem copyMetric_first_occurrence_decides_witness :
    (copyMetric cCopyRule cCopyDp "m2").isSome =
      lookupBoolM cCopyRule.dimensionValues "good" :=
  copyMetric_first_occurrence_decides cCopyRule cCopyDp "m2"
    [] [{ key := "k", value := "bad" }] { key := "k", value := "good" }
    (by decide) rfl (by simp) rfl ⟨{ key := "k", value := "bad" }, by simp, rfl⟩

lemma splitMetricLoop_no_match (dp : DataPoint) (dimensionKey : String)
    (mapping : Option (List (String × String))) :
    ∀ (d : Dimension) (rest : List Dimension) (acc : List Dimension),
      (∀ x ∈ d :: rest, x.key = dimensionKey → lookupM mapping x.value = none) →
      splitMetricLoop dp dimensionKey mapping (d :: rest) dp.metric acc false = dp := by
  intro d rest
  induction rest generalizing d with
  | nil =>
    intro acc h
    by_cases hk : dimensionKey = d.key
    · have hnone := h d (by simp) hk.symm
      simp [splitMetricLoop, hk, hnone]
    · simp [splitMetricLoop, hk]
  | cons d' rest' ih =>
    intro acc h
    by_cases hk : dimensionKey = d.key
    · have hnone := h d (by simp) hk.symm
      simp [splitMetricLoop, hk, hnone]
    · rw [splitMetricLoop, if_neg hk, if_neg (by simp)]
      exact ih d' (acc ++ [d]) (fun x hx hxk => h x (by simp [hx]) hxk)

/-- C7: a split_metric action leaves a data point entirely unchanged (metric
name and dimension list) when no dimension with the configured key carries a
value that is mapped, covering both the key-absent and value-unmapped
cases. -/
theorem splitMetric_unmatched_unchanged (dp : DataPoint) (dimensionKey : String)
    (mapping : Option (List (String × String)))
    (h : ∀ x ∈ dp.dimensions, x.key = dimensionKey → lookupM mapping x.value = none) :
    splitMetric dp dimensionKey mapping = dp := by
  unfold splitMetric
  rcases hd : dp.dimensions with _ | ⟨d, rest⟩
  · simp
  · rw [if_neg (by simp [hd])]
    rw [hd] at h
    exact splitMetricLoop_no_match dp dimensionKey mapping d rest [] h

theorem splitMetric_unmatched_unchanged_witness :
    splitMetric cSplitDp "dir" (some [("rx", "m_rx")]) = cSplitDp :=
  splitMetric_unmatched_unchanged cSplitDp "dir" (some [("rx", "m_rx")]) (by decide)

lemma calculateNewMetric_none (op1? op2? : Option DataPoint) (tr : Rule)
    (h : op1?.bind (fun op => op.value.intValue) = none ∨
         op2?.bind (fun op => op.value.intValue) = none ∨
         op2?.bind (fun op => op.value.intValue) = some 0) :
    calculateNewMetric op1? op2? tr = none := by
  rcases h1 : op1? with _ | op1
  · simp [calculateNewMetric]
  · rcases hv1 : op1.value.intValue with _ | v1
    · simp [calculateNewMetric, hv1]
    · rcases h2 : op2? with _ | op2
      · simp [calculateNewMetric, hv1]
      · rcases hv2 : op2.value.intValue with _ | v2
        · simp [calculateNewMetric, hv1, hv2]
        · subst h1
          subst h2
          simp [hv1, hv2] at h
          by_cases hop : tr.operator = "/"
          · simp [calculateNewMetric, hv1, hv2, hop, h]
          · simp [calculateNewMetric, hv1, hv2, hop, h]

/-- C3: a calculate_new_metric action with a missing operand, a non-integer
operand, or a zero operand-2 value produces no new data point and returns
the working batch unchanged. -/
theorem calculateNewMetric_skip_unchanged (tr : Rule) (dps : List DataPoint)
    (hact : tr.action = ActionCalculateNewMetric)
    (h : (findOperands dps tr.operand1Metric tr.operand2Metric).1.bind
          (fun op => op.value.intValue) = none ∨
         (findOperands dps tr.operand1Metric tr.operand2Metric).2.bind
          (fun op => op.value.intValue) = none ∨
         (findOperands dps tr.operand1Metric tr.operand2Metric).2.bind
          (fun op => op.value.intValue) = some 0) :
    calculateNewMetric (findOperands dps tr.operand1Metric tr.operand2Metric).1
        (findOperands dps tr.operand1Metric tr.operand2Metric).2 tr = none ∧
      applyRule tr dps = dps := by
  have hnone := calculateNewMetric_none _ _ tr h
  refine ⟨hnone, ?_⟩
  simp [applyRule, hact, hnone]

theorem calculateNewMetric_skip_unchanged_witness :
    calculateNewMetric
        (findOperands [mkIntDp "a" 10, mkIntDp "b" 0] cCalcRule.operand1Metric
          cCalcRule.operand2Metric).1
        (findOperands [mkIntDp "a" 10, mkIntDp "b" 0] cCalcRule.operand1Metric
          cCalcRule.operand2Metric).2 cCalcRule = none ∧
      applyRule cCalcRule [mkIntDp "a" 10, mkIntDp "b" 0] = [mkIntDp "a" 10, mkIntDp "b" 0] :=
  calculateNewMetric_skip_unchanged cCalcRule [mkIntDp "a" 10, mkIntDp "b" 0] rfl
    (Or.inr (Or.inr (by decide)))

lemma findOperands_fst (dps : List DataPoint) (m1 m2 : String) :
    (findOperands dps m1 m2).1 = dps.reverse.find? (fun dp => dp.metric == m1) := by
  induction dps using List.reverseRecOn with
  | nil => simp [findOperands]
  | append_singleton l a ih =>
    simp only [findOperands] at ih ⊢
    rw [List.foldl_append, List.reverse_append]
    simp only [List.reverse_singleton, List.singleton_append, List.find?_cons,
      List.foldl_cons, List.foldl_nil]
    by_cases h1 : a.metric = m1
    · rw [if_pos h1]
      have hb : (a.metric == m1) = true := by simp [h1]
      simp [hb]
    · rw [if_neg h1]
      have hb : (a.metric == m1) = false := by simp [h1]
      by_cases h2 : a.metric = m2
      · rw [if_pos h2]
        simp [hb, ih]
      · rw [if_neg h2]
        simp [hb, ih]

lemma findOperands_snd (dps : List DataPoint) (m1 m2 : String) :
    (findOperands dps m1 m2).2 =
      dps.reverse.find? (fun dp => !(dp.metric == m1) && dp.metric == m2) := by
  induction dps using List.reverseRecOn with
  | nil => simp [findOperands]
  | append_singleton l a ih =>
    simp only [findOperands] at ih ⊢
    rw [List.foldl_append, List.reverse_append]
    simp only [List.reverse_singleton, List.singleton_append, List.find?_cons,
      List.foldl_cons, List.foldl_nil]
    by_cases h1 : a.metric = m1
    · rw [if_pos h1]
      have hb : (a.metric == m1) = true := by simp [h1]
      simp [hb, ih]
    · rw [if_neg h1]
      have hb : (a.metric == m1) = false := by simp [h1]
      by_cases h2 : a.metric = m2
      · rw [if_pos h2]
        have hb2 : (a.metric == m2) = true := by simp [h2]
        simp [hb, hb2]
      · rw [if_neg h2]
        have hb2 : (a.metric == m2) = false := by simp [h2]
        simp [hb, hb2, ih]

/-- C2 (amended): for a calculate_new_metric division rule, when the last
data point named operand-1 and the last data point named operand-2 (among
points not named operand-1) both carry integer values and operand-2's value
is non-zero, exactly one new point is appended at the end of the batch: a
duplicate of the selected operand-1 point (same dimensions, timestamp and
metric type) renamed to the rule's metric name, whose single floating-point
value is the exact, non-truncating quotient of the two integer values. -/
theorem calculateNewMetric_appends_quotient (tr : Rule) (dps : List DataPoint)
    (op1 op2 : DataPoint) (v1 v2 : Int)
    (hact : tr.action = ActionCalculateNewMetric)
    (hop : tr.operator = MetricOperatorDivision)
    (h1 : dps.reverse.find? (fun dp => dp.metric == tr.operand1Metric) = some op1)
    (h2 : dps.reverse.find? (fun dp => !(dp.metric == tr.operand1Metric) &&
            dp.metric == tr.operand2Metric) = some op2)
    (hv1 : op1.value.intValue = some v1)
    (hv2 : op2.value.intValue = some v2)
    (hnz : v2 ≠ 0) :
    applyRule tr dps = dps ++
      [{ op1 with
          metric := tr.metricName
          value := { intValue := none, doubleValue := some ((v1 : ℚ) / (v2 : ℚ)) } }] := by
  have hf1 : (findOperands dps tr.operand1Metric tr.operand2Metric).1 = some op1 := by
    rw [findOperands_fst, h1]
  have hf2 : (findOperands dps tr.operand1Metric tr.operand2Metric).2 = some op2 := by
    rw [findOperands_snd, h2]
  have hop' : tr.operator = "/" := hop
  have hcalc : calculateNewMetric (findOperands dps tr.operand1Metric tr.operand2Metric).1
      (findOperands dps tr.operand1Metric tr.operand2Metric).2 tr =
      some { op1 with
              metric := tr.metricName
              value := { intValue := none, doubleValue := some ((v1 : ℚ) / (v2 : ℚ)) } } := by
    rw [hf1, hf2]
    simp [calculateNewMetric, hv1, hv2, hop', hnz]
  simp [applyRule, hact, hcalc]

theorem calculateNewMetric_appends_quotient_witness :
    applyRule cCalcRule [mkIntDp "a" 10, mkIntDp "a" 6, mkIntDp "b" 2] =
      [mkIntDp "a" 10, mkIntDp "a" 6, mkIntDp "b" 2] ++
        [{ mkIntDp "a" 6 with
            metric := cCalcRule.metricName
            value := { intValue := none
                       doubleValue := some (((6 : Int) : ℚ) / ((2 : Int) : ℚ)) } }] :=
  calculateNewMetric_appends_quotient cCalcRule
    [mkIntDp "a" 10, mkIntDp "a" 6, mkIntDp "b" 2]
    (mkIntDp "a" 6) (mkIntDp "b" 2) 6 2 rfl rfl (by decide) (by decide) rfl rfl (by decide)

/-- C2 counterexample: the claim says the engine selects the *first* data
point named operand-1; on the batch [a=10, a=6, b=2] the engine in fact
appends the quotient 6/2 built from the *last* point named a, not the
quotient 10/2 built from the first one. -/
theorem calculateNewMetric_first_operand_counterexample :
    (applyRule cCalcRule [mkIntDp "a" 10, mkIntDp "a" 6, mkIntDp "b" 2] =
      [mkIntDp "a" 10, mkIntDp "a" 6, mkIntDp "b" 2] ++
        [{ mkIntDp "a" 6 with
            metric := "c"
            value := { intValue := none
                       doubleValue := some (((6 : Int) : ℚ) / ((2 : Int) : ℚ)) } }]) ∧
    applyRule cCalcRule [mkIntDp "a" 10, mkIntDp "a" 6, mkIntDp "b" 2] ≠
      [mkIntDp "a" 10, mkIntDp "a" 6, mkIntDp "b" 2] ++
        [{ mkIntDp "a" 10 with
            metric := "c"
            value := { intValue := none
                       doubleValue := some (((10 : Int) : ℚ) / ((2 : Int) : ℚ)) } }] := by
  have heq : applyRule cCalcRule [mkIntDp "a" 10, mkIntDp "a" 6, mkIntDp "b" 2] =
      [mkIntDp "a" 10, mkIntDp "a" 6, mkIntDp "b" 2] ++
        [{ mkIntDp "a" 6 with
            metric := "c"
            value := { intValue := none
                       doubleValue := some (((6 : Int) : ℚ) / ((2 : Int) : ℚ)) } }] := rfl
  refine ⟨heq, ?_⟩
  rw [heq]
  intro h
  have h3 := List.append_cancel_left h
  have h4 := List.singleton_inj.mp h3
  have h5 : ((6 : Int) : ℚ) / ((2 : Int) : ℚ) = ((10 : Int) : ℚ) / ((2 : Int) : ℚ) := by
    have hval := congrArg (fun dp => dp.value.doubleValue) h4
    simpa [mkIntDp] using hval
  norm_num at h5

lemma wrap64_eq_self {x : Int} (h1 : -(2 ^ 63) ≤ x) (h2 : x < 2 ^ 63) : wrap64 x = x := by
  unfold wrap64
  have h3 : 0 ≤ x + 2 ^ 63 := by omega
  have h4 : x + 2 ^ 63 < 2 ^ 64 := by omega
  rw [Int.emod_eq_of_lt h3 h4]
  omega

lemma lookupM_singleton {α : Type} (a : String) (b : α) (s : String) :
    lookupM (some [(a, b)]) s = if a == s then some b else none := by
  cases h : a == s <;> simp [lookupM, List.find?, h]

lemma list_map_id_of_mem {α : Type} {l : List α} {f : α → α}
    (h : ∀ a ∈ l, f a = a) : l.map f = l := by
  induction l with
  | nil => rfl
  | cons a t ih =>
    simp only [List.map_cons, h a (by simp)]
    rw [ih (fun x hx => h x (by simp [hx]))]

/-- C8: a multiply_int rule by a non-zero factor k followed by a divide_int
rule by k for the same metric is the identity on every data point whose
integer value (and its intermediate product with k) fits the int64 range,
i.e. whenever the intermediate product is exact. -/
theorem multiplyInt_then_divideInt_identity (m : String) (k : Int)
    (dps : List DataPoint) (hk : k ≠ 0)
    (hrange : ∀ dp ∈ dps, dp.metric = m → ∀ v, dp.value.intValue = some v →
      -(2 ^ 63) ≤ v ∧ v < 2 ^ 63 ∧ -(2 ^ 63) ≤ v * k ∧ v * k < 2 ^ 63) :
    TranslateDataPoints
      { rules := [mulIntRule m k, divIntRule m k], dimensionsMap := none } dps = dps := by
  unfold TranslateDataPoints
  simp only [List.foldl_cons, List.foldl_nil]
  simp [applyRule, mulIntRule, divIntRule, emptyRule, List.map_map]
  apply list_map_id_of_mem
  intro dp hdp
  rcases hdpe : dp with ⟨met, dims, ⟨iv, dv⟩, ts, mt⟩
  by_cases hmm : m = met
  · have hb : (m == met) = true := by simp [hmm]
    cases iv with
    | none => simp [lookupM, List.find?, hb]
    | some v =>
      have hrv := hrange dp hdp (by rw [hdpe]; exact hmm.symm) v (by rw [hdpe])
      obtain ⟨r1, r2, r3, r4⟩ := hrv
      have hmul : goMul64 v k = v * k := wrap64_eq_self r3 r4
      have hdiv : goDiv64 (v * k) k = v := by
        unfold goDiv64
        rw [Int.mul_tdiv_cancel v hk]
        exact wrap64_eq_self r1 r2
      simp [lookupM, List.find?, hb, hmul, hdiv]
  · have hb : (m == met) = false := by simp [hmm]
    simp [lookupM, List.find?, hb]

theorem multiplyInt_then_divideInt_identity_witness :
    TranslateDataPoints
      { rules := [mulIntRule "m" 3, divIntRule "m" 3], dimensionsMap := none }
      [mkIntDp "m" 7] = [mkIntDp "m" 7] :=
  multiplyInt_then_divideInt_identity "m" 3 [mkIntDp "m" 7] (by decide)
    (by
      intro dp hdp
      simp at hdp
      subst hdp
      intro hm v hv
      simp [mkIntDp] at hv
      subst hv
      decide)

lemma groupDps_loop_same_key (keys : List String) (K : String) :
    ∀ (dps : List DataPoint) (l : List DataPoint),
      (∀ dp ∈ dps, getAggregationKey dp.dimensions keys = Except.ok K) →
      dps.foldl
        (fun gs dp =>
          match getAggregationKey dp.dimensions keys with
          | Except.error _ => gs
          | Except.ok k => addToGroups gs k dp)
        [(K, l)] = [(K, l ++ dps)] := by
  intro dps
  induction dps with
  | nil => intro l _; simp
  | cons dp rest ih =>
    intro l h
    rw [List.foldl_cons]
    rw [h dp (by simp)]
    show List.foldl _ (addToGroups [(K, l)] K dp) rest = _
    rw [show addToGroups [(K, l)] K dp = [(K, l ++ [dp])] by simp [addToGroups]]
    rw [ih (l ++ [dp]) (fun x hx => h x (by simp [hx]))]
    simp

lemma groupDps_all_same_key (dps : List DataPoint) (keys : List String) (K : String)
    (hne : dps ≠ [])
    (h : ∀ dp ∈ dps, getAggregationKey dp.dimensions keys = Except.ok K) :
    groupDps dps keys = [(K, dps)] := by
  rcases dps with _ | ⟨dp, rest⟩
  · exact absurd rfl hne
  · unfold groupDps
    rw [List.foldl_cons]
    rw [h dp (by simp)]
    show List.foldl _ (addToGroups [] K dp) rest = _
    rw [show addToGroups [] K dp = [(K, [dp])] from rfl]
    rw [groupDps_loop_same_key keys K rest [dp] (fun x hx => h x (by simp [hx]))]
    simp

/-- C4: a count aggregation over a non-empty set of N data points that all
share one composite dimension key produces exactly one output data point
whose value is the integer N and whose metric type is the gauge
representation. -/
theorem aggregateDatapoints_count_single_group (dps : List DataPoint)
    (keys : List String) (K : String)
    (hne : dps ≠ [])
    (h : ∀ dp ∈ dps, getAggregationKey dp.dimensions keys = Except.ok K) :
    ∃ out, aggregateDatapoints dps keys AggregationMethodCount = [out] ∧
      out.value = { intValue := some (Int.ofNat dps.length), doubleValue := none } ∧
      out.metricType = some MetricType.gauge := by
  unfold aggregateDatapoints
  rw [if_neg hne]
  rw [groupDps_all_same_key dps keys K hne h]
  rcases dps with _ | ⟨rep, rest⟩
  · exact absurd rfl hne
  · refine ⟨reduceGroup keys AggregationMethodCount (rep :: rest), by simp, ?_, ?_⟩ <;>
      simp [reduceGroup]

theorem aggregateDatapoints_count_single_group_witness :
    ∃ out, aggregateDatapoints [cAggDpA, cAggDpB] ["host"] AggregationMethodCount = [out] ∧
      out.value = { intValue := some (Int.ofNat [cAggDpA, cAggDpB].length)
                    doubleValue := none } ∧
      out.metricType = some MetricType.gauge :=
  aggregateDatapoints_count_single_group [cAggDpA, cAggDpB] ["host"] "a//"
    (by decide)
    (by
      intro dp hdp
      simp at hdp
      rcases hdp with rfl | rfl <;> rfl)

lemma sumStep_intValue_none (acc : Int × ℚ × Datum) (dp : DataPoint)
    (h : dp.value.intValue = none) :
    (sumStep acc dp).2.2.intValue = acc.2.2.intValue := by
  rcases hd : dp.value.doubleValue with _ | v <;> simp [sumStep, h, hd]

lemma sumStep_doubleValue_none (acc : Int × ℚ × Datum) (dp : DataPoint)
    (h : dp.value.doubleValue = none) :
    (sumStep acc dp).2.2.doubleValue = acc.2.2.doubleValue := by
  rcases hi : dp.value.intValue with _ | v <;> simp [sumStep, h, hi]

lemma sumFold_intValue_none :
    ∀ (dps : List DataPoint) (acc : Int × ℚ × Datum),
      (∀ dp ∈ dps, dp.value.intValue = none) →
      ((dps.foldl sumStep acc).2.2).intValue = acc.2.2.intValue := by
  intro dps
  induction dps with
  | nil => intro acc _; rfl
  | cons dp rest ih =>
    intro acc h
    rw [List.foldl_cons]
    rw [ih (sumStep acc dp) (fun x hx => h x (by simp [hx]))]
    exact sumStep_intValue_none acc dp (h dp (by simp))

lemma sumFold_doubleValue_none :
    ∀ (dps : List DataPoint) (acc : Int × ℚ × Datum),
      (∀ dp ∈ dps, dp.value.doubleValue = none) →
      ((dps.foldl sumStep acc).2.2).doubleValue = acc.2.2.doubleValue := by
  intro dps
  induction dps with
  | nil => intro acc _; rfl
  | cons dp rest ih =>
    intro acc h
    rw [List.foldl_cons]
    rw [ih (sumStep acc dp) (fun x hx => h x (by simp [hx]))]
    exact sumStep_doubleValue_none acc dp (h dp (by simp))

/-- C5: a sum aggregation accumulates integer and floating-point
contributions independently: the group with integer values 5 and 3 and
floating value 5/2 reduces to one point carrying integer 8 and floating 5/2
simultaneously, and a value field absent across the whole group stays
absent on the result. -/
theorem aggregateDatapoints_sum_independent_fields :
    (∃ out, aggregateDatapoints [cAggDpA, cAggDpB, cAggDpF] ["host"]
        AggregationMethodSum = [out] ∧
      out.value.intValue = some 8 ∧ out.value.doubleValue = some (5 / 2 : ℚ)) ∧
    (∀ dps : List DataPoint, (∀ dp ∈ dps, dp.value.intValue = none) →
      (sumDatum dps).intValue = none) ∧
    (∀ dps : List DataPoint, (∀ dp ∈ dps, dp.value.doubleValue = none) →
      (sumDatum dps).doubleValue = none) := by
  refine ⟨⟨reduceGroup ["host"] AggregationMethodSum [cAggDpA, cAggDpB, cAggDpF],
      rfl, by decide, ?_⟩, ?_, ?_⟩
  · have hdv : (reduceGroup ["host"] AggregationMethodSum
        [cAggDpA, cAggDpB, cAggDpF]).value.doubleValue =
        some ((0 : ℚ) + (5 / 2 : ℚ)) := rfl
    rw [hdv]
    norm_num
  · intro dps h
    exact sumFold_intValue_none dps (0, 0, { intValue := none, doubleValue := none }) h
  · intro dps h
    exact sumFold_doubleValue_none dps (0, 0, { intValue := none, doubleValue := none }) h

theorem aggregateDatapoints_sum_independent_fields_witness :
    (sumDatum [cAggDpF]).intValue = none ∧ (sumDatum [cAggDpA]).doubleValue = none :=
  ⟨aggregateDatapoints_sum_independent_fields.2.1 [cAggDpF] (by decide),
   aggregateDatapoints_sum_independent_fields.2.2 [cAggDpA] (by decide)⟩

/-- C6 counterexample: on a data point that carries the configured key
twice, the aggregation output's dimension list keeps both occurrences, so
it is not `exactly the configured dimension keys`, each appearing once. -/
theorem aggregate_output_dimensions_counterexample :
    ∃ out, aggregateDatapoints [cDupDp] ["host"] AggregationMethodCount = [out] ∧
      out.dimensions =
        [{ key := "host", value := "a" }, { key := "host", value := "b" }] ∧
      out.dimensions.map (fun d => d.key) ≠ ["host"] :=
  ⟨reduceGroup ["host"] AggregationMethodCount [cDupDp], rfl, by decide, by decide⟩

lemma groupDps_drop_error (keys : List String) (dps1 dps2 : List DataPoint)
    (dp : DataPoint) (e : String)
    (h : getAggregationKey dp.dimensions keys = Except.error e) :
    groupDps (dps1 ++ dp :: dps2) keys = groupDps (dps1 ++ dps2) keys := by
  unfold groupDps
  rw [List.foldl_append, List.foldl_append, List.foldl_cons]
  congr 1
  simp [h]

lemma addToGroups_inv {P : DataPoint → Prop} :
    ∀ (gs : List (String × List DataPoint)) (k : String) (dp : DataPoint),
      (∀ g ∈ gs, g.2 ≠ [] ∧ ∀ x ∈ g.2, P x) → P dp →
      ∀ g ∈ addToGroups gs k dp, g.2 ≠ [] ∧ ∀ x ∈ g.2, P x := by
  intro gs
  induction gs with
  | nil =>
    intro k dp _ hP g hg
    simp [addToGroups] at hg
    subst hg
    refine ⟨by simp, ?_⟩
    intro x hx
    simp at hx
    subst hx
    exact hP
  | cons g0 rest ih =>
    intro k dp hgs hP g hg
    rcases g0 with ⟨k0, l0⟩
    by_cases hk : k0 = k
    · rw [show addToGroups ((k0, l0) :: rest) k dp = (k0, l0 ++ [dp]) :: rest by
        simp [addToGroups, hk]] at hg
      rcases List.mem_cons.mp hg with hg | hg
      · subst hg
        refine ⟨by simp, ?_⟩
        intro x hx
        rcases List.mem_append.mp hx with hx | hx
        · exact (hgs (k0, l0) (by simp)).2 x hx
        · simp at hx
          subst hx
          exact hP
      · exact hgs g (by simp [hg])
    · rw [show addToGroups ((k0, l0) :: rest) k dp =
          (k0, l0) :: addToGroups rest k dp by simp [addToGroups, hk]] at hg
      rcases List.mem_cons.mp hg with hg | hg
      · subst hg
        exact hgs (k0, l0) (by simp)
      · exact ih k dp (fun g' hg' => hgs g' (by simp [hg'])) hP g hg

lemma groupDps_inv {P : DataPoint → Prop} (keys : List String) :
    ∀ (dps : List DataPoint) (acc : List (String × List DataPoint)),
      (∀ dp ∈ dps, P dp) → (∀ g ∈ acc, g.2 ≠ [] ∧ ∀ x ∈ g.2, P x) →
      ∀ g ∈ dps.foldl
        (fun gs dp =>
          match getAggregationKey dp.dimensions keys with
          | Except.error _ => gs
          | Except.ok k => addToGroups gs k dp)
        acc, g.2 ≠ [] ∧ ∀ x ∈ g.2, P x := by
  intro dps
  induction dps with
  | nil =>
    intro acc _ hacc g hg
    exact hacc g hg
  | cons dp rest ih =>
    intro acc h hacc g hg
    rw [List.foldl_cons] at hg
    refine ih _ (fun x hx => h x (by simp [hx])) ?_ g hg
    rcases hkey : getAggregationKey dp.dimensions keys with e | k
    · simpa [hkey] using hacc
    · intro g' hg'
      refine addToGroups_inv acc k dp hacc (h dp (by simp)) g' ?_
      simpa [hkey] using hg'

lemma aggregate_output_dims_from_representative (dps : List DataPoint)
    (keys : List String) (agg : String) (out : DataPoint)
    (hout : out ∈ aggregateDatapoints dps keys agg) :
    ∃ rep, rep ∈ dps ∧ out.dimensions = filterDimensions rep.dimensions keys := by
  unfold aggregateDatapoints at hout
  by_cases hne : dps = []
  · rw [if_pos hne] at hout
    simp at hout
  · rw [if_neg hne] at hout
    rcases List.mem_map.mp hout with ⟨g, hg, rfl⟩
    have hinv := groupDps_inv (P := fun x => x ∈ dps) keys dps []
      (fun _ h => h) (by simp) g hg
    rcases g with ⟨k, l⟩
    rcases hl : l with _ | ⟨rep, tail⟩
    · exact absurd (by simp [hl]) hinv.1
    · refine ⟨rep, hinv.2 rep (by simp [hl]), ?_⟩
      unfold reduceGroup
      simp only [hl]
      by_cases h1 : agg = "count"
      · simp [h1]
      · by_cases h2 : agg = "sum" <;> simp [h1, h2]

lemma foldl_append_acc {α β : Type} (f : α → List β) :
    ∀ (keys : List α) (acc : List β),
      keys.foldl (fun res dk => res ++ f dk) acc = acc ++ keys.flatMap f := by
  intro keys
  induction keys with
  | nil => intro acc; simp
  | cons k ks ih =>
    intro acc
    rw [List.foldl_cons, ih, List.flatMap_cons, List.append_assoc]

lemma filterDimensions_eq_bind (dims : List Dimension) (keys : List String) :
    filterDimensions dims keys =
      keys.flatMap (fun k => dims.filter (fun d => d.key == k)) := by
  unfold filterDimensions
  by_cases h1 : dims = []
  · rw [if_pos (Or.inl h1)]
    subst h1
    simp
  · by_cases h2 : keys = []
    · rw [if_pos (Or.inr h2)]
      subst h2
      simp
    · rw [if_neg (by tauto)]
      rw [foldl_append_acc (fun k => dims.filter (fun d => d.key == k)) keys []]
      simp

lemma filterDimensions_keys_exact (dims : List Dimension) :
    ∀ keys : List String,
      (∀ k ∈ keys, (dims.filter (fun d => d.key == k)).length = 1) →
      (filterDimensions dims keys).map (fun d => d.key) = keys := by
  intro keys
  induction keys with
  | nil => intro _; simp [filterDimensions_eq_bind]
  | cons k ks ih =>
    intro h
    rw [filterDimensions_eq_bind, List.flatMap_cons]
    rcases List.length_eq_one.mp (h k (by simp)) with ⟨d, hd⟩
    have hdmem : d ∈ dims.filter (fun x => x.key == k) := by simp [hd]
    have hdk : d.key = k := by
      have := (List.mem_filter.mp hdmem).2
      simpa using this
    rw [List.map_append, hd]
    have ihr := ih (fun k' hk' => h k' (by simp [hk']))
    rw [filterDimensions_eq_bind] at ihr
    rw [ihr]
    simp [hdk]

/-- C6 (amended): a data point whose dimensions lack a configured key
contributes to no aggregation group; every aggregation output's dimension
list is the representative member's dimensions filtered to the configured
keys, where the filter keeps, for each configured key in order, every
occurrence of that key, so the output keys are exactly the configured keys
whenever the representative carries each configured key exactly once. -/
theorem aggregate_dimension_handling_amended :
    (∀ (keys : List String) (dps1 dps2 : List DataPoint) (dp : DataPoint) (e : String),
      getAggregationKey dp.dimensions keys = Except.error e →
      groupDps (dps1 ++ dp :: dps2) keys = groupDps (dps1 ++ dps2) keys) ∧
    (∀ (dps : List DataPoint) (keys : List String) (agg : String) (out : DataPoint),
      out ∈ aggregateDatapoints dps keys agg →
      ∃ rep, rep ∈ dps ∧ out.dimensions = filterDimensions rep.dimensions keys) ∧
    (∀ (dims : List Dimension) (keys : List String),
      filterDimensions dims keys =
        keys.flatMap (fun k => dims.filter (fun d => d.key == k))) ∧
    (∀ (dims : List Dimension) (keys : List String),
      (∀ k ∈ keys, (dims.filter (fun d => d.key == k)).length = 1) →
      (filterDimensions dims keys).map (fun d => d.key) = keys) :=
  ⟨groupDps_drop_error, aggregate_output_dims_from_representative,
    filterDimensions_eq_bind, filterDimensions_keys_exact⟩

theorem aggregate_dimension_handling_amended_witness :
    (groupDps ([] ++ cDupDp :: []) ["cpu"] = groupDps ([] ++ []) ["cpu"]) ∧
    (∃ rep, rep ∈ [cAggDpA, cAggDpB] ∧
      (reduceGroup ["host"] AggregationMethodCount [cAggDpA, cAggDpB]).dimensions =
        filterDimensions rep.dimensions ["host"]) ∧
    (filterDimensions cAggDpA.dimensions ["host"]).map (fun d => d.key) = ["host"] :=
  ⟨aggregate_dimension_handling_amended.1 ["cpu"] [] [] cDupDp
      "dimension to aggregate by is not found: cpu" rfl,
   aggregate_dimension_handling_amended.2.1 [cAggDpA, cAggDpB] ["host"]
      AggregationMethodCount _ (by simp [aggregateDatapoints,
        groupDps_all_same_key [cAggDpA, cAggDpB] ["host"] "a//" (by decide)
          (by intro dp hdp; simp at hdp; rcases hdp with rfl | rfl <;> rfl)]),
   aggregate_dimension_handling_amended.2.2.2 cAggDpA.dimensions ["host"] (by decide)⟩
